import Mathlib

/-!
Verification of the arena allocator in `memoryhelp.c` / `main.c`.

The C program manages a single heap region through an explicit free list of
`struct Block` headers threaded through the arena.  We model the arena as a
flat address space: an address is an integer byte offset of type `Int`
(mirroring `char *` arithmetic), and the part of the arena holding block
headers is a finite map from header addresses to header contents.  `NULL`
pointers are `Option.none`.  Machine `int` arithmetic is modelled as
unbounded `Int`; the one place where 32-bit overflow is observable in the
claims - the alignment mask computation - wraps explicitly through `int32`.
Block sizes and offsets stay far inside the `int` range in every state the
allocator can actually reach, so `+`/`-` on them never wrap.

The allocation loop of `my_alloc` can fail to terminate when the caller
corrupts the free list (double free), so the loop is given explicit fuel:
a result of `none` means the modelled execution either reads a header that
was never written (undefined behaviour in C) or fails to terminate within
the given fuel; `some` results are the values the C program returns.
`my_alloc` also yields the list of lines the call prints, because the
invalid-size path of the C code calls `printf`.

Constants are the 64-bit-target values from the source:
`OVERHEAD_SIZE = sizeof(struct Block) = 16` (a 4-byte `int`, 4 bytes of
padding, an 8-byte pointer) and `POINTER_SIZE = sizeof(void *) = 8`.
-/

/-- `struct Block`: `block_size` is the payload size, `next_block` the next
free block in the list (`none` = `NULL`). -/
structure Block where
  block_size : Int
  next_block : Option Int
deriving DecidableEq

/-- The headers currently written in the arena, keyed by header address. -/
abbrev Mem := List (Int × Block)

/-- Read the block header stored at address `a`, if one was ever written there. -/
def readBlock (m : Mem) (a : Int) : Option Block :=
  match m.find? (fun p => p.1 == a) with
  | some p => some p.2
  | none => none

/-- Store a block header at address `a`, replacing any header previously there. -/
def writeBlock (m : Mem) (a : Int) (b : Block) : Mem :=
  (a, b) :: m.filter (fun p => !(p.1 == a))

/-- Allocator state: the written headers and the global `free_head`. -/
structure HeapState where
  mem : Mem
  free_head : Option Int
deriving DecidableEq

/-- Wrap an unbounded integer to the value of a 32-bit two's-complement `int`. -/
def int32 (x : Int) : Int := (x + 2 ^ 31) % 2 ^ 32 - 2 ^ 31

/-- `const int OVERHEAD_SIZE = sizeof(struct Block);` (16 on the 64-bit target). -/
def OVERHEAD_SIZE : Int := 16

/-- `const int POINTER_SIZE = sizeof(void *);` (8 on the 64-bit target). -/
def POINTER_SIZE : Int := 8

/-- `alignedSize = (size + POINTER_SIZE - 1) & ~(POINTER_SIZE - 1)` computed in
32-bit `int` arithmetic: the sum wraps through `int32` and the bitwise AND is
two's-complement `Int.land`; `~(POINTER_SIZE - 1)` is `Int.lnot 7 = -8`. -/
def alignedOf (size : Int) : Int :=
  Int.land (int32 (size + POINTER_SIZE - 1)) (Int.lnot (POINTER_SIZE - 1))

/-- Outcome of the free-list scan in `my_alloc`: the first block (with its
predecessor) whose `block_size` is at least the scanned-for size, or `noFit`
when the walk reaches `NULL`. -/
inductive ScanResult where
  | found (prev : Option Int) (curr : Int)
  | noFit
deriving DecidableEq

/-- The `while (curr != NULL)` search loop of `my_alloc`, with fuel.
`none` means the loop read an unwritten header (C undefined behaviour) or
did not terminate within `fuel` steps. -/
def scanFit (m : Mem) (required : Int) : Nat → Option Int → Option Int → Option ScanResult
  | _, _, none => some .noFit
  | 0, _, some _ => none
  | fuel + 1, prev, some c =>
    match readBlock m c with
    | none => none
    | some blk =>
      if blk.block_size ≥ required then some (.found prev c)
      else scanFit m required fuel (some c) blk.next_block

/-- The list of block addresses reachable from `hd` by following `next_block`,
or `none` if the walk reads an unwritten header or does not reach `NULL`
within `fuel` steps (e.g. because the list is cyclic). -/
def freeChain (m : Mem) : Nat → Option Int → Option (List Int)
  | _, none => some []
  | 0, some _ => none
  | fuel + 1, some c =>
    match readBlock m c with
    | none => none
    | some b =>
      match freeChain m fuel b.next_block with
      | none => none
      | some l => some (c :: l)

/-- The value held by the loop variable `prev` after the scan has rejected
every block in `l`, having started with `prev = p`. -/
def lastOf : List Int → Option Int → Option Int
  | [], p => p
  | a :: t, _ => lastOf t (some a)

/-- The store `a->next_block = nxt` (it preserves `block_size`); `none` if no
header was ever written at `a`. -/
def setNext (m : Mem) (a : Int) (nxt : Option Int) : Option Mem :=
  match readBlock m a with
  | none => none
  | some b => some (writeBlock m a { block_size := b.block_size, next_block := nxt })

/-- Result of `my_alloc`: the returned payload pointer (or `NULL` via `fail`)
together with the post-state. -/
inductive AllocResult where
  | ok (payload : Int) (st : HeapState)
  | fail (st : HeapState)
deriving DecidableEq

/-- The allocator state after an allocation attempt, successful or not. -/
def AllocResult.state : AllocResult → HeapState
  | .ok _ st => st
  | .fail st => st

/-- `my_initialize_heap(size)`: on a successful `malloc` (`mallocOk = true`)
one free block of size `size` with `next_block = NULL` is written at the base
of the region (modelled at address 0) and becomes the whole free list; if
`malloc` fails, `free_head` stays `NULL` and nothing is written. -/
def my_initialize_heap (size : Int) (mallocOk : Bool) : HeapState :=
  if mallocOk then
    { mem := [(0, { block_size := size, next_block := none })], free_head := some 0 }
  else
    { mem := [], free_head := none }

/-- `my_alloc(size)`.  Returns the C result paired with the lines printed by
the call; `none` marks undefined behaviour or a non-terminating scan.  The C
locals are inlined: `alignedSize` is `alignedOf size`, `requiredSize` is
`alignedOf size + OVERHEAD_SIZE`, the split's `newBlock` address is
`c + (alignedOf size + OVERHEAD_SIZE)`, and the split condition
`curr->block_size >= requiredSize + OVERHEAD_SIZE + POINTER_SIZE` appears
with `requiredSize` expanded. -/
def my_alloc (fuel : Nat) (st : HeapState) (size : Int) : Option (AllocResult × List String) :=
  if size ≤ 0 then
    some (.fail st, ["Size must be greater than 0."])
  else
    match scanFit st.mem (alignedOf size + OVERHEAD_SIZE) fuel none st.free_head with
    | none => none
    | some .noFit => some (.fail st, [])
    | some (.found prev c) =>
      match readBlock st.mem c with
      | none => none
      | some blk =>
        if blk.block_size ≥ alignedOf size + OVERHEAD_SIZE + OVERHEAD_SIZE + POINTER_SIZE then
          match prev with
          | none =>
            some (.ok (c + OVERHEAD_SIZE)
              { mem := writeBlock
                  (writeBlock st.mem (c + (alignedOf size + OVERHEAD_SIZE))
                    { block_size := blk.block_size - (alignedOf size + OVERHEAD_SIZE),
                      next_block := blk.next_block })
                  c { block_size := alignedOf size, next_block := blk.next_block },
                free_head := some (c + (alignedOf size + OVERHEAD_SIZE)) }, [])
          | some p =>
            match setNext
                (writeBlock
                  (writeBlock st.mem (c + (alignedOf size + OVERHEAD_SIZE))
                    { block_size := blk.block_size - (alignedOf size + OVERHEAD_SIZE),
                      next_block := blk.next_block })
                  c { block_size := alignedOf size, next_block := blk.next_block })
                p (some (c + (alignedOf size + OVERHEAD_SIZE))) with
            | none => none
            | some m3 => some (.ok (c + OVERHEAD_SIZE) { mem := m3, free_head := st.free_head }, [])
        else
          match prev with
          | none => some (.ok (c + OVERHEAD_SIZE) { mem := st.mem, free_head := blk.next_block }, [])
          | some p =>
            match setNext st.mem p blk.next_block with
            | none => none
            | some m1 => some (.ok (c + OVERHEAD_SIZE) { mem := m1, free_head := st.free_head }, [])

/-- `my_free(ptr)`: a no-op on `NULL`; otherwise the owning header is found
`OVERHEAD_SIZE` bytes before `ptr` and pushed onto the front of the free
list (`blockToFree->next_block = free_head; free_head = blockToFree;`). -/
def my_free (st : HeapState) (ptr : Option Int) : Option HeapState :=
  match ptr with
  | none => some st
  | some p =>
    match readBlock st.mem (p - OVERHEAD_SIZE) with
    | none => none
    | some b =>
      some { mem := writeBlock st.mem (p - OVERHEAD_SIZE)
               { block_size := b.block_size, next_block := st.free_head },
             free_head := some (p - OVERHEAD_SIZE) }

/-- Every header written in the arena has a `block_size` that is a multiple
of the pointer-alignment unit. -/
def sizesAligned (st : HeapState) : Prop :=
  ∀ e ∈ st.mem, e.2.block_size % POINTER_SIZE = 0

/-! ### Basic memory lemmas -/

theorem readBlock_writeBlock_self (m : Mem) (a : Int) (b : Block) :
    readBlock (writeBlock m a b) a = some b := by
  unfold readBlock writeBlock
  rw [List.find?_cons_of_pos _ (by simp)]

theorem find?_filter_ne (m : Mem) (a a' : Int) (h : a' ≠ a) :
    (m.filter (fun p => !(p.1 == a))).find? (fun p => p.1 == a') =
      m.find? (fun p => p.1 == a') := by
  induction m with
  | nil => rfl
  | cons x t ih =>
    by_cases hx : x.1 = a
    · rw [List.filter_cons_of_neg (by simp [hx]), ih,
        List.find?_cons_of_neg _ (by simp [hx, h.symm])]
    · by_cases hy : x.1 = a'
      · rw [List.filter_cons_of_pos (by simp [hx]),
          List.find?_cons_of_pos _ (by simp [hy]), List.find?_cons_of_pos _ (by simp [hy])]
      · rw [List.filter_cons_of_pos (by simp [hx]),
          List.find?_cons_of_neg _ (by simp [hy]), List.find?_cons_of_neg _ (by simp [hy]), ih]

theorem readBlock_writeBlock_ne (m : Mem) (a a' : Int) (b : Block) (h : a' ≠ a) :
    readBlock (writeBlock m a b) a' = readBlock m a' := by
  unfold readBlock writeBlock
  rw [List.find?_cons_of_neg _ (by simp [h.symm]), find?_filter_ne m a a' h]

theorem readBlock_mem (m : Mem) (a : Int) (b : Block) (h : readBlock m a = some b) :
    (a, b) ∈ m := by
  unfold readBlock at h
  cases hf : m.find? (fun p => p.1 == a) with
  | none => rw [hf] at h; cases h
  | some p =>
    rw [hf] at h
    have hb : p.2 = b := by
      have : some p.2 = some b := h
      exact Option.some.inj this
    have hp := List.find?_some hf
    have hmem := List.mem_of_find?_eq_some hf
    have ha : p.1 = a := by simpa using hp
    rw [← ha, ← hb]
    exact hmem

theorem mem_writeBlock (m : Mem) (a : Int) (b : Block) (e : Int × Block)
    (h : e ∈ writeBlock m a b) : e = (a, b) ∨ e ∈ m := by
  unfold writeBlock at h
  rcases List.mem_cons.mp h with h1 | h1
  · exact Or.inl h1
  · exact Or.inr (List.mem_of_mem_filter h1)

/-! ### Step equations for the fuelled walks -/

theorem scanFit_none_hd (m : Mem) (required : Int) (fuel : Nat) (prev : Option Int) :
    scanFit m required fuel prev none = some .noFit := by
  cases fuel <;> rfl

theorem scanFit_step (m : Mem) (required : Int) (fuel : Nat) (prev : Option Int) (c : Int)
    (b : Block) (hr : readBlock m c = some b) :
    scanFit m required (fuel + 1) prev (some c) =
      if b.block_size ≥ required then some (.found prev c)
      else scanFit m required fuel (some c) b.next_block := by
  conv_lhs => unfold scanFit
  rw [hr]

theorem freeChain_step_none (m : Mem) (fuel : Nat) (c : Int) (hr : readBlock m c = none) :
    freeChain m (fuel + 1) (some c) = none := by
  unfold freeChain
  rw [hr]

theorem freeChain_step (m : Mem) (fuel : Nat) (c : Int) (b : Block)
    (hr : readBlock m c = some b) :
    freeChain m (fuel + 1) (some c) =
      match freeChain m fuel b.next_block with
      | none => none
      | some l => some (c :: l) := by
  conv_lhs => unfold freeChain
  rw [hr]

/-! ### Free-chain and scan lemmas -/

theorem freeChain_cons (m : Mem) (fuel : Nat) (hd : Option Int) (x : Int) (l : List Int)
    (h : freeChain m fuel hd = some (x :: l)) :
    ∃ f' b, fuel = f' + 1 ∧ hd = some x ∧ readBlock m x = some b ∧
      freeChain m f' b.next_block = some l := by
  match hd, fuel with
  | none, fuel => simp [freeChain] at h
  | some c, 0 => simp [freeChain] at h
  | some c, f + 1 =>
    cases hr : readBlock m c with
    | none => rw [freeChain_step_none m f c hr] at h; cases h
    | some b =>
      rw [freeChain_step m f c b hr] at h
      cases hc : freeChain m f b.next_block with
      | none => rw [hc] at h; simp at h
      | some l' =>
        rw [hc] at h
        simp only [Option.some.injEq, List.cons.injEq] at h
        obtain ⟨h1, h2⟩ := h
        subst h1; subst h2
        exact ⟨f, b, rfl, rfl, hr, hc⟩

theorem freeChain_nil_hd (m : Mem) (fuel : Nat) (hd : Option Int)
    (h : freeChain m fuel hd = some []) : hd = none := by
  match hd, fuel with
  | none, _ => rfl
  | some c, 0 => simp [freeChain] at h
  | some c, f + 1 =>
    cases hr : readBlock m c with
    | none => rw [freeChain_step_none m f c hr] at h; cases h
    | some b =>
      rw [freeChain_step m f c b hr] at h
      cases hc : freeChain m f b.next_block with
      | none => rw [hc] at h; simp at h
      | some l' => rw [hc] at h; simp at h

theorem freeChain_read (m : Mem) :
    ∀ (l : List Int) (fuel : Nat) (hd : Option Int),
      freeChain m fuel hd = some l → ∀ a ∈ l, ∃ b, readBlock m a = some b := by
  intro l
  induction l with
  | nil => intro fuel hd _ a ha; cases ha
  | cons x t ih =>
    intro fuel hd h a ha
    obtain ⟨f', b, _, _, hr, hrest⟩ := freeChain_cons m fuel hd x t h
    rcases List.mem_cons.mp ha with h1 | h1
    · exact ⟨b, h1 ▸ hr⟩
    · exact ih f' b.next_block hrest a h1

theorem lastOf_none_mem : ∀ (l : List Int) (x : Int), lastOf l none = some x → x ∈ l := by
  have key : ∀ (l : List Int) (p : Option Int) (x : Int),
      lastOf l p = some x → x ∈ l ∨ p = some x := by
    intro l
    induction l with
    | nil => intro p x h; exact Or.inr h
    | cons a t ih =>
      intro p x h
      rcases ih (some a) x h with h1 | h1
      · exact Or.inl (List.mem_cons_of_mem a h1)
      · exact Or.inl (by simp [Option.some.inj h1])
  intro l x h
  rcases key l none x h with h1 | h1
  · exact h1
  · cases h1

theorem lastOf_eq_none : ∀ (l : List Int), lastOf l none = none → l = [] := by
  have key : ∀ (l : List Int) (a : Int), lastOf l (some a) ≠ none := by
    intro l
    induction l with
    | nil => intro a h; cases h
    | cons x t ih => intro a h; exact ih x h
  intro l h
  cases l with
  | nil => rfl
  | cons x t => exact absurd h (key t x)

theorem scanFit_found_of_chain (m : Mem) (required : Int) (c : Int) (blk : Block)
    (l2 : List Int) (hc : readBlock m c = some blk) (hfit : blk.block_size ≥ required) :
    ∀ (l1 : List Int) (fuel : Nat) (prev hd : Option Int),
      freeChain m fuel hd = some (l1 ++ c :: l2) →
      (∀ a ∈ l1, ∀ b, readBlock m a = some b → b.block_size < required) →
      scanFit m required fuel prev hd = some (.found (lastOf l1 prev) c) := by
  intro l1
  induction l1 with
  | nil =>
    intro fuel prev hd hchain _
    obtain ⟨f', b, hf, hhd, hr, _⟩ := freeChain_cons m fuel hd c l2 (by simpa using hchain)
    subst hf; subst hhd
    have hb : b = blk := by rw [hr] at hc; exact Option.some.inj hc
    subst hb
    rw [scanFit_step m required f' prev c b hr, if_pos hfit]
    rfl
  | cons a t ih =>
    intro fuel prev hd hchain hsmall
    obtain ⟨f', b, hf, hhd, hr, hrest⟩ :=
      freeChain_cons m fuel hd a (t ++ c :: l2) (by simpa using hchain)
    subst hf; subst hhd
    have hsa : b.block_size < required := hsmall a (List.mem_cons_self a t) b hr
    rw [scanFit_step m required f' prev a b hr, if_neg (by omega)]
    exact ih f' (some a) b.next_block hrest
      (fun x hx bx hbx => hsmall x (List.mem_cons_of_mem a hx) bx hbx)

theorem scanFit_noFit_of_chain (m : Mem) (required : Int) :
    ∀ (l : List Int) (fuel : Nat) (prev hd : Option Int),
      freeChain m fuel hd = some l →
      (∀ a ∈ l, ∀ b, readBlock m a = some b → b.block_size < required) →
      scanFit m required fuel prev hd = some .noFit := by
  intro l
  induction l with
  | nil =>
    intro fuel prev hd hchain _
    rw [freeChain_nil_hd m fuel hd hchain]
    exact scanFit_none_hd m required fuel prev
  | cons a t ih =>
    intro fuel prev hd hchain hsmall
    obtain ⟨f', b, hf, hhd, hr, hrest⟩ := freeChain_cons m fuel hd a t hchain
    subst hf; subst hhd
    have hsa : b.block_size < required := hsmall a (List.mem_cons_self a t) b hr
    rw [scanFit_step m required f' prev a b hr, if_neg (by omega)]
    exact ih f' (some a) b.next_block hrest
      (fun x hx bx hbx => hsmall x (List.mem_cons_of_mem a hx) bx hbx)

theorem scanFit_cycle_none (m : Mem) (required : Int) (c : Int) (blk : Block)
    (hc : readBlock m c = some blk) (hnext : blk.next_block = some c)
    (hsmall : blk.block_size < required) :
    ∀ (fuel : Nat) (prev : Option Int), scanFit m required fuel prev (some c) = none := by
  intro fuel
  induction fuel with
  | zero => intro prev; rfl
  | succ f ih =>
    intro prev
    rw [scanFit_step m required f prev c blk hc, if_neg (by omega), hnext]
    exact ih (some c)

/-! ### Alignment arithmetic -/

theorem int32_eq_self (x : Int) (h1 : -(2 : Int) ^ 31 ≤ x) (h2 : x < 2 ^ 31) :
    int32 x = x := by
  unfold int32
  omega

theorem ldiff_seven (a : Nat) : Nat.ldiff a 7 = 8 * (a / 8) := by
  apply Nat.eq_of_testBit_eq
  intro i
  rw [Nat.testBit_ldiff]
  have h8 : 8 * (a / 8) = (a >>> 3) <<< 3 := by
    rw [Nat.shiftLeft_eq, Nat.shiftRight_eq_div_pow]
    norm_num; ring
  rw [h8, Nat.testBit_shiftLeft, Nat.testBit_shiftRight]
  have h7 : Nat.testBit 7 i = decide (i < 3) := by
    have h : (7 : Nat) = 2 ^ 3 - 1 := by norm_num
    rw [h, Nat.testBit_two_pow_sub_one]
  rw [h7]
  rcases Nat.lt_or_ge i 3 with h | h
  · simp [Nat.not_le.mpr h, h]
  · have h3 : 3 + (i - 3) = i := by omega
    simp [h, h3, Nat.not_lt.mpr h]

theorem lor_seven_mod (m : Nat) : (m ||| 7) % 8 = 7 := by
  have h : (m ||| 7) % 8 = (m ||| 7) % 2 ^ 3 := by norm_num
  rw [h]
  apply Nat.eq_of_testBit_eq
  intro i
  rw [Nat.testBit_mod_two_pow, Nat.testBit_or]
  have h7 : Nat.testBit 7 i = decide (i < 3) := by
    have h' : (7 : Nat) = 2 ^ 3 - 1 := by norm_num
    rw [h', Nat.testBit_two_pow_sub_one]
  rw [h7]
  rcases Nat.lt_or_ge i 3 with h | h
  · simp [h]
  · simp [Nat.not_lt.mpr h]

theorem land_neg_eight_emod (y : Int) : Int.land y (-8) % 8 = 0 := by
  have hneg : (-8 : Int) = Int.negSucc 7 := rfl
  rw [hneg]
  cases y with
  | ofNat a =>
    have h : Int.land (Int.ofNat a) (Int.negSucc 7) = Int.ofNat (Nat.ldiff a 7) := rfl
    rw [h, ldiff_seven]
    have : (Int.ofNat (8 * (a / 8))) = 8 * (Int.ofNat (a / 8)) := by
      simp [Int.ofNat_mul]
    rw [this]
    omega
  | negSucc a =>
    have h : Int.land (Int.negSucc a) (Int.negSucc 7) = Int.negSucc (a ||| 7) := rfl
    rw [h]
    have hm : (a ||| 7) % 8 = 7 := lor_seven_mod a
    have hcast : (Int.negSucc (a ||| 7)) = -(((a ||| 7 : Nat) : Int) + 1) := by
      rw [Int.negSucc_eq]
    rw [hcast]
    have hcast2 : ((a ||| 7 : Nat) : Int) % 8 = 7 := by
      omega
    omega

theorem alignedOf_emod (size : Int) : alignedOf size % POINTER_SIZE = 0 := by
  unfold alignedOf POINTER_SIZE
  have h : Int.lnot (8 - 1) = -8 := rfl
  rw [h]
  exact land_neg_eight_emod (int32 (size + 8 - 1))

theorem alignedOf_eq (size : Int) (h1 : 0 < size)
    (h2 : size + POINTER_SIZE - 1 < 2 ^ 31) :
    alignedOf size = POINTER_SIZE * ((size + POINTER_SIZE - 1) / POINTER_SIZE) := by
  unfold alignedOf POINTER_SIZE
  unfold POINTER_SIZE at h2
  have hlnot : Int.lnot (8 - 1) = -8 := rfl
  rw [hlnot]
  have hid : int32 (size + 8 - 1) = size + 8 - 1 := by
    apply int32_eq_self <;> omega
  rw [hid]
  set t := size + 8 - 1 with ht
  have htpos : 0 ≤ t := by omega
  obtain ⟨a, ha⟩ := Int.eq_ofNat_of_zero_le htpos
  have h : Int.land (Int.ofNat a) (-8) = Int.ofNat (Nat.ldiff a 7) := rfl
  rw [ha, show ((a : Nat) : Int) = Int.ofNat a from rfl, h, ldiff_seven]
  simp only [Int.ofNat_eq_natCast]
  omega

theorem alignedOf_ge (size : Int) (h1 : 0 < size)
    (h2 : size + POINTER_SIZE - 1 < 2 ^ 31) :
    size ≤ alignedOf size ∧ POINTER_SIZE ≤ alignedOf size := by
  rw [alignedOf_eq size h1 h2]
  unfold POINTER_SIZE
  unfold POINTER_SIZE at h2
  omega

/-! ### Branch equations for my_alloc and my_free -/

theorem my_alloc_noFit_eq (fuel : Nat) (st : HeapState) (size : Int) (h0 : 0 < size)
    (hscan : scanFit st.mem (alignedOf size + OVERHEAD_SIZE) fuel none st.free_head =
      some .noFit) :
    my_alloc fuel st size = some (.fail st, []) := by
  unfold my_alloc
  rw [if_neg (by omega), hscan]

theorem my_alloc_split_head_eq (fuel : Nat) (st : HeapState) (size : Int) (c : Int)
    (blk : Block) (h0 : 0 < size)
    (hscan : scanFit st.mem (alignedOf size + OVERHEAD_SIZE) fuel none st.free_head =
      some (.found none c))
    (hc : readBlock st.mem c = some blk)
    (hbig : blk.block_size ≥ alignedOf size + OVERHEAD_SIZE + OVERHEAD_SIZE + POINTER_SIZE) :
    my_alloc fuel st size =
      some (.ok (c + OVERHEAD_SIZE)
        { mem := writeBlock
            (writeBlock st.mem (c + (alignedOf size + OVERHEAD_SIZE))
              { block_size := blk.block_size - (alignedOf size + OVERHEAD_SIZE),
                next_block := blk.next_block })
            c { block_size := alignedOf size, next_block := blk.next_block },
          free_head := some (c + (alignedOf size + OVERHEAD_SIZE)) }, []) := by
  unfold my_alloc
  rw [if_neg (by omega), hscan]
  simp only [hc, if_pos hbig]

theorem my_alloc_split_prev_eq (fuel : Nat) (st : HeapState) (size : Int) (p c : Int)
    (blk pb : Block) (h0 : 0 < size)
    (hscan : scanFit st.mem (alignedOf size + OVERHEAD_SIZE) fuel none st.free_head =
      some (.found (some p) c))
    (hc : readBlock st.mem c = some blk)
    (hbig : blk.block_size ≥ alignedOf size + OVERHEAD_SIZE + OVERHEAD_SIZE + POINTER_SIZE)
    (hp : readBlock
        (writeBlock
          (writeBlock st.mem (c + (alignedOf size + OVERHEAD_SIZE))
            { block_size := blk.block_size - (alignedOf size + OVERHEAD_SIZE),
              next_block := blk.next_block })
          c { block_size := alignedOf size, next_block := blk.next_block }) p = some pb) :
    my_alloc fuel st size =
      some (.ok (c + OVERHEAD_SIZE)
        { mem := writeBlock
            (writeBlock
              (writeBlock st.mem (c + (alignedOf size + OVERHEAD_SIZE))
                { block_size := blk.block_size - (alignedOf size + OVERHEAD_SIZE),
                  next_block := blk.next_block })
              c { block_size := alignedOf size, next_block := blk.next_block })
            p { block_size := pb.block_size,
                next_block := some (c + (alignedOf size + OVERHEAD_SIZE)) },
          free_head := st.free_head }, []) := by
  unfold my_alloc
  rw [if_neg (by omega), hscan]
  simp only [hc, if_pos hbig, setNext, hp]

theorem my_alloc_whole_head_eq (fuel : Nat) (st : HeapState) (size : Int) (c : Int)
    (blk : Block) (h0 : 0 < size)
    (hscan : scanFit st.mem (alignedOf size + OVERHEAD_SIZE) fuel none st.free_head =
      some (.found none c))
    (hc : readBlock st.mem c = some blk)
    (hsmallrem : ¬ blk.block_size ≥ alignedOf size + OVERHEAD_SIZE + OVERHEAD_SIZE + POINTER_SIZE) :
    my_alloc fuel st size =
      some (.ok (c + OVERHEAD_SIZE) { mem := st.mem, free_head := blk.next_block }, []) := by
  unfold my_alloc
  rw [if_neg (by omega), hscan]
  simp only [hc, if_neg hsmallrem]

theorem my_alloc_whole_prev_eq (fuel : Nat) (st : HeapState) (size : Int) (p c : Int)
    (blk pb : Block) (h0 : 0 < size)
    (hscan : scanFit st.mem (alignedOf size + OVERHEAD_SIZE) fuel none st.free_head =
      some (.found (some p) c))
    (hc : readBlock st.mem c = some blk)
    (hsmallrem : ¬ blk.block_size ≥ alignedOf size + OVERHEAD_SIZE + OVERHEAD_SIZE + POINTER_SIZE)
    (hp : readBlock st.mem p = some pb) :
    my_alloc fuel st size =
      some (.ok (c + OVERHEAD_SIZE)
        { mem := writeBlock st.mem p
            { block_size := pb.block_size, next_block := blk.next_block },
          free_head := st.free_head }, []) := by
  unfold my_alloc
  rw [if_neg (by omega), hscan]
  simp only [hc, if_neg hsmallrem, setNext, hp]

theorem my_alloc_diverge_eq (fuel : Nat) (st : HeapState) (size : Int) (h0 : 0 < size)
    (hscan : scanFit st.mem (alignedOf size + OVERHEAD_SIZE) fuel none st.free_head = none) :
    my_alloc fuel st size = none := by
  unfold my_alloc
  rw [if_neg (by omega), hscan]

theorem my_free_some_eq (st : HeapState) (p : Int) (b : Block)
    (hb : readBlock st.mem (p - OVERHEAD_SIZE) = some b) :
    my_free st (some p) =
      some { mem := writeBlock st.mem (p - OVERHEAD_SIZE)
               { block_size := b.block_size, next_block := st.free_head },
             free_head := some (p - OVERHEAD_SIZE) } := by
  simp only [my_free, hb]

/-! ### Concrete alignment values (computed through the ceiling form, since
the kernel does not reduce `Nat.ldiff`) -/

theorem alignedOf_one : alignedOf 1 = 8 := by
  rw [alignedOf_eq 1 (by decide) (by decide)]
  decide

theorem alignedOf_four : alignedOf 4 = 8 := by
  rw [alignedOf_eq 4 (by decide) (by decide)]
  decide

theorem alignedOf_1001 : alignedOf 1001 = 1008 := by
  rw [alignedOf_eq 1001 (by decide) (by decide)]
  decide

/-! ### Claim theorems -/

/-- C2: for every positive requested size, if every block reachable on the
free list has `block_size` smaller than `alignedSize + OVERHEAD_SIZE`
(`requiredSize`), `my_alloc` returns the failure value `NULL` and the
allocator state - free list, headers, links, membership - is returned
entirely unchanged (the post-state is literally the pre-state `st`). -/
theorem my_alloc_oom_unchanged (st : HeapState) (size : Int) (fuel : Nat) (l : List Int)
    (hsize : 0 < size)
    (hchain : freeChain st.mem fuel st.free_head = some l)
    (hsmall : ∀ a ∈ l, ∀ b, readBlock st.mem a = some b →
      b.block_size < alignedOf size + OVERHEAD_SIZE) :
    my_alloc fuel st size = some (.fail st, []) :=
  my_alloc_noFit_eq fuel st size hsize
    (scanFit_noFit_of_chain st.mem (alignedOf size + OVERHEAD_SIZE) l fuel none
      st.free_head hchain hsmall)

/-- C2 witness: a 1000-byte heap cannot serve a 1001-byte request
(`requiredSize` is 1024) and the state comes back untouched. -/
theorem my_alloc_oom_unchanged_witness :
    my_alloc 2 (my_initialize_heap 1000 true) 1001 =
      some (.fail (my_initialize_heap 1000 true), []) := by
  apply my_alloc_oom_unchanged (my_initialize_heap 1000 true) 1001 2 [0]
  · decide
  · decide
  · intro a ha b hb
    have ha0 : a = 0 := by simpa using ha
    subst ha0
    have hb' : some { block_size := (1000 : Int), next_block := (none : Option Int) } =
        some b := by rw [← hb]; rfl
    have hbb := Option.some.inj hb'
    rw [← hbb, alignedOf_1001]
    decide

/-- C4 counterexample: at `requestedSize = 2147483647` (a positive `int`) the
32-bit computation `(size + POINTER_SIZE - 1) & ~(POINTER_SIZE - 1)` wraps to
`-2147483648`, which is smaller than the requested size, so it is not the
least multiple of `POINTER_SIZE` greater than or equal to `requestedSize`. -/
theorem alignedOf_overflow_counterexample :
    (0 : Int) < 2147483647 ∧ alignedOf 2147483647 = -2147483648 ∧
    ¬ ((2147483647 : Int) ≤ alignedOf 2147483647) := by decide

/-- C4 (amended): for every requested size with `0 < size` and
`size + POINTER_SIZE - 1 < 2^31` (no 32-bit overflow in the sum), the aligned
size equals `ceil(size / POINTER_SIZE) * POINTER_SIZE`, i.e. the least
multiple of the pointer-alignment unit that is at least the requested size. -/
theorem alignedOf_least_multiple (size : Int) (h1 : 0 < size)
    (h2 : size + POINTER_SIZE - 1 < 2 ^ 31) :
    alignedOf size = POINTER_SIZE * ((size + POINTER_SIZE - 1) / POINTER_SIZE) ∧
    alignedOf size % POINTER_SIZE = 0 ∧
    size ≤ alignedOf size ∧
    ∀ m : Int, m % POINTER_SIZE = 0 → size ≤ m → alignedOf size ≤ m := by
  have he := alignedOf_eq size h1 h2
  refine ⟨he, alignedOf_emod size, ?_, ?_⟩
  · rw [he]
    unfold POINTER_SIZE at *
    omega
  · intro m hm hsm
    rw [he]
    unfold POINTER_SIZE at *
    omega

/-- C4 witness: requesting 14 bytes aligns to 16, a multiple of 8 at least 14. -/
theorem alignedOf_least_multiple_witness :
    alignedOf 14 % POINTER_SIZE = 0 ∧ (14 : Int) ≤ alignedOf 14 :=
  ⟨(alignedOf_least_multiple 14 (by decide) (by decide)).2.1,
   (alignedOf_least_multiple 14 (by decide) (by decide)).2.2.1⟩

/-- C7 counterexample: on `my_alloc(0)` the core prints the diagnostic
`Size must be greater than 0.` - a nonempty output - so the claim's
`no logging on any failure path` part fails on the invalid-size path. -/
theorem my_alloc_invalid_size_prints :
    my_alloc 1 (my_initialize_heap 1000 true) 0 =
      some (.fail (my_initialize_heap 1000 true), ["Size must be greater than 0."]) ∧
    ["Size must be greater than 0."] ≠ ([] : List String) := by
  constructor
  · decide
  · decide

/-- C7 (amended): `my_alloc(size)` with `size <= 0` fails with the
InvalidSize indicator (`NULL`), the allocator state is returned unchanged,
the failure is an explicit return value to the immediate caller with no
retry and no process termination (the call terminates normally with `some`),
but the core does print one diagnostic line on this path. -/
theorem my_alloc_invalid_size (fuel : Nat) (st : HeapState) (size : Int) (h : size ≤ 0) :
    my_alloc fuel st size = some (.fail st, ["Size must be greater than 0."]) := by
  unfold my_alloc
  rw [if_pos h]

/-- C7 witness: `my_alloc(-3)` fails in place with the diagnostic. -/
theorem my_alloc_invalid_size_witness :
    my_alloc 1 (my_initialize_heap 1000 true) (-3) =
      some (.fail (my_initialize_heap 1000 true), ["Size must be greater than 0."]) :=
  my_alloc_invalid_size 1 (my_initialize_heap 1000 true) (-3) (by decide)

/-- C8: if the underlying `malloc` fails during `my_initialize_heap`,
`free_head` is `NULL` and nothing is written, and every subsequent `my_alloc`
call - for any capacity, any requested size and any fuel - terminates cleanly
returning `NULL` with the state unchanged (`some (.fail _)`, never the `none`
that marks a dereference of an unwritten header or a diverging scan). -/
theorem my_alloc_after_failed_init (capacity size : Int) (fuel : Nat) :
    my_alloc fuel (my_initialize_heap capacity false) size =
      some (.fail (my_initialize_heap capacity false),
        if size ≤ 0 then ["Size must be greater than 0."] else []) := by
  have hinit : my_initialize_heap capacity false =
      { mem := [], free_head := none } := rfl
  by_cases h : size ≤ 0
  · rw [if_pos h]
    exact my_alloc_invalid_size fuel _ size h
  · rw [if_neg h]
    apply my_alloc_noFit_eq fuel _ size (by omega)
    rw [hinit]
    exact scanFit_none_hd _ _ fuel none

/-- C10: freeing the same pointer `p` twice in a row makes `free_head` point
at `p`'s header and that header's `next_block` point at itself, so the free
list is a one-node cycle; any later `my_alloc` whose `requiredSize` exceeds
that block's `block_size` never terminates: the scan returns for no amount of
fuel (`none` for every fuel), because it revisits the same block forever
instead of reaching `NULL`. -/
theorem double_free_cycle_diverges (st : HeapState) (p : Int) (b : Block)
    (st1 st2 : HeapState) (size : Int)
    (hb : readBlock st.mem (p - OVERHEAD_SIZE) = some b)
    (hf1 : my_free st (some p) = some st1)
    (hf2 : my_free st1 (some p) = some st2)
    (hsize : 0 < size)
    (htoobig : b.block_size < alignedOf size + OVERHEAD_SIZE) :
    st2.free_head = some (p - OVERHEAD_SIZE) ∧
    readBlock st2.mem (p - OVERHEAD_SIZE) =
      some { block_size := b.block_size, next_block := some (p - OVERHEAD_SIZE) } ∧
    ∀ fuel : Nat, my_alloc fuel st2 size = none := by
  have e1 : my_free st (some p) =
      some { mem := writeBlock st.mem (p - OVERHEAD_SIZE)
               { block_size := b.block_size, next_block := st.free_head },
             free_head := some (p - OVERHEAD_SIZE) } := my_free_some_eq st p b hb
  rw [hf1] at e1
  have hst1 := Option.some.inj e1
  subst hst1
  have hr1 : readBlock
      (writeBlock st.mem (p - OVERHEAD_SIZE)
        { block_size := b.block_size, next_block := st.free_head }) (p - OVERHEAD_SIZE) =
      some { block_size := b.block_size, next_block := st.free_head } :=
    readBlock_writeBlock_self _ _ _
  have e2 := my_free_some_eq
    { mem := writeBlock st.mem (p - OVERHEAD_SIZE)
        { block_size := b.block_size, next_block := st.free_head },
      free_head := some (p - OVERHEAD_SIZE) }
    p { block_size := b.block_size, next_block := st.free_head } hr1
  rw [hf2] at e2
  have hst2 := Option.some.inj e2
  subst hst2
  have hr2 : readBlock
      (writeBlock
        (writeBlock st.mem (p - OVERHEAD_SIZE)
          { block_size := b.block_size, next_block := st.free_head })
        (p - OVERHEAD_SIZE)
        { block_size := b.block_size, next_block := some (p - OVERHEAD_SIZE) })
      (p - OVERHEAD_SIZE) =
      some { block_size := b.block_size, next_block := some (p - OVERHEAD_SIZE) } :=
    readBlock_writeBlock_self _ _ _
  refine ⟨rfl, hr2, ?_⟩
  intro fuel
  apply my_alloc_diverge_eq fuel _ size hsize
  exact scanFit_cycle_none _ (alignedOf size + OVERHEAD_SIZE) (p - OVERHEAD_SIZE)
    { block_size := b.block_size, next_block := some (p - OVERHEAD_SIZE) }
    hr2 rfl htoobig fuel none

/-- C10 witness: double free of the block at payload 16 in a one-block heap,
then a request whose required size (24) exceeds the block size (8) makes the
scan spin forever (here checked at fuel 100). -/
theorem double_free_cycle_diverges_witness :
    my_alloc 100
      { mem := [((0 : Int),
          { block_size := (8 : Int), next_block := some (0 : Int) })],
        free_head := some 0 } 1 = none :=
  (double_free_cycle_diverges
    { mem := [((0 : Int), { block_size := (8 : Int), next_block := none })],
      free_head := none }
    16 { block_size := 8, next_block := none }
    { mem := [((0 : Int), { block_size := (8 : Int), next_block := none })],
      free_head := some 0 }
    { mem := [((0 : Int), { block_size := (8 : Int), next_block := some (0 : Int) })],
      free_head := some 0 }
    1 (by decide) (by decide) (by decide) (by decide)
    (by rw [alignedOf_one]; decide)).2.2 100

/-- C9: releasing two blocks that are adjacent in the arena (the second
header starts right at the end of the first block's payload) never merges
them: both remain separate free-list entries, each keeping its own
`block_size`; no `my_free` changes any block's size anywhere, and neither
entry's size equals the sum of the two. -/
theorem my_free_no_coalesce (st : HeapState) (p1 p2 : Int) (b1 b2 : Block)
    (st1 st2 : HeapState)
    (h1 : readBlock st.mem (p1 - OVERHEAD_SIZE) = some b1)
    (h2 : readBlock st.mem (p2 - OVERHEAD_SIZE) = some b2)
    (hadj : p2 - OVERHEAD_SIZE = p1 + b1.block_size)
    (hpos1 : 0 < b1.block_size) (hpos2 : 0 < b2.block_size)
    (hf1 : my_free st (some p1) = some st1)
    (hf2 : my_free st1 (some p2) = some st2) :
    st2.free_head = some (p2 - OVERHEAD_SIZE) ∧
    readBlock st2.mem (p2 - OVERHEAD_SIZE) =
      some { block_size := b2.block_size, next_block := some (p1 - OVERHEAD_SIZE) } ∧
    readBlock st2.mem (p1 - OVERHEAD_SIZE) =
      some { block_size := b1.block_size, next_block := st.free_head } ∧
    (∀ a b, readBlock st2.mem a = some b →
      ∃ b0, readBlock st.mem a = some b0 ∧ b.block_size = b0.block_size) ∧
    b1.block_size ≠ b1.block_size + b2.block_size ∧
    b2.block_size ≠ b1.block_size + b2.block_size := by
  have hne : p1 - OVERHEAD_SIZE ≠ p2 - OVERHEAD_SIZE := by
    unfold OVERHEAD_SIZE at hadj ⊢
    omega
  have e1 : my_free st (some p1) =
      some { mem := writeBlock st.mem (p1 - OVERHEAD_SIZE)
               { block_size := b1.block_size, next_block := st.free_head },
             free_head := some (p1 - OVERHEAD_SIZE) } := my_free_some_eq st p1 b1 h1
  rw [hf1] at e1
  have hst1 := Option.some.inj e1
  subst hst1
  have hr2 : readBlock
      (writeBlock st.mem (p1 - OVERHEAD_SIZE)
        { block_size := b1.block_size, next_block := st.free_head })
      (p2 - OVERHEAD_SIZE) = some b2 := by
    rw [readBlock_writeBlock_ne _ _ _ _ hne.symm]
    exact h2
  have e2 := my_free_some_eq
    { mem := writeBlock st.mem (p1 - OVERHEAD_SIZE)
        { block_size := b1.block_size, next_block := st.free_head },
      free_head := some (p1 - OVERHEAD_SIZE) }
    p2 b2 hr2
  rw [hf2] at e2
  have hst2 := Option.some.inj e2
  subst hst2
  refine ⟨rfl, readBlock_writeBlock_self _ _ _, ?_, ?_, by omega, by omega⟩
  · rw [readBlock_writeBlock_ne _ _ _ _ hne]
    exact readBlock_writeBlock_self _ _ _
  · intro a b hb
    by_cases ha2 : a = p2 - OVERHEAD_SIZE
    · subst ha2
      rw [readBlock_writeBlock_self] at hb
      have hbv := Option.some.inj hb
      exact ⟨b2, h2, by rw [← hbv]⟩
    · rw [readBlock_writeBlock_ne _ _ _ _ ha2] at hb
      by_cases ha1 : a = p1 - OVERHEAD_SIZE
      · subst ha1
        rw [readBlock_writeBlock_self] at hb
        have hbv := Option.some.inj hb
        exact ⟨b1, h1, by rw [← hbv]⟩
      · rw [readBlock_writeBlock_ne _ _ _ _ ha1] at hb
        exact ⟨b, hb, rfl⟩

/-- C9 witness: the blocks at headers 0 (size 8) and 24 (size 16) are
adjacent; after freeing payloads 16 then 40 they are two separate entries
with sizes 8 and 16, not one of size 24. -/
theorem my_free_no_coalesce_witness :
    readBlock [((24 : Int), { block_size := (16 : Int), next_block := some (0 : Int) }),
               ((0 : Int), { block_size := (8 : Int), next_block := (none : Option Int) })]
        ((40 : Int) - OVERHEAD_SIZE) =
      some { block_size := 16, next_block := some ((16 : Int) - OVERHEAD_SIZE) } ∧
    readBlock [((24 : Int), { block_size := (16 : Int), next_block := some (0 : Int) }),
               ((0 : Int), { block_size := (8 : Int), next_block := (none : Option Int) })]
        ((16 : Int) - OVERHEAD_SIZE) =
      some { block_size := 8, next_block := (none : Option Int) } ∧
    (16 : Int) ≠ 8 + 16 :=
  ⟨(my_free_no_coalesce
      { mem := [((0 : Int), { block_size := (8 : Int), next_block := none }),
                ((24 : Int), { block_size := (16 : Int), next_block := none })],
        free_head := none }
      16 40 { block_size := 8, next_block := none } { block_size := 16, next_block := none }
      { mem := [((0 : Int), { block_size := (8 : Int), next_block := none }),
                ((24 : Int), { block_size := (16 : Int), next_block := none })],
        free_head := some 0 }
      { mem := [((24 : Int), { block_size := (16 : Int), next_block := some (0 : Int) }),
                ((0 : Int), { block_size := (8 : Int), next_block := none })],
        free_head := some 24 }
      (by decide) (by decide) (by decide) (by decide) (by decide)
      (by decide) (by decide)).2.1,
   (my_free_no_coalesce
      { mem := [((0 : Int), { block_size := (8 : Int), next_block := none }),
                ((24 : Int), { block_size := (16 : Int), next_block := none })],
        free_head := none }
      16 40 { block_size := 8, next_block := none } { block_size := 16, next_block := none }
      { mem := [((0 : Int), { block_size := (8 : Int), next_block := none }),
                ((24 : Int), { block_size := (16 : Int), next_block := none })],
        free_head := some 0 }
      { mem := [((24 : Int), { block_size := (16 : Int), next_block := some (0 : Int) }),
                ((0 : Int), { block_size := (8 : Int), next_block := none })],
        free_head := some 24 }
      (by decide) (by decide) (by decide) (by decide) (by decide)
      (by decide) (by decide)).2.2.1,
   by decide⟩

/-- C5: when the first block in link order whose `block_size` is at least
`requiredSize` does not also satisfy the split threshold
`requiredSize + OVERHEAD_SIZE + POINTER_SIZE`, `my_alloc` consumes the whole
block: it is unlinked from the free list (the head - or the predecessor's
`next_block` - now points at its old `next_block`), its `size` field keeps
its original larger value (the header at `c` still reads exactly `blk`, not
a block of size `alignedSize`), and the returned payload pointer is
`c + OVERHEAD_SIZE`, the address immediately after the block's header. -/
theorem my_alloc_whole_correct (st : HeapState) (size : Int) (fuel : Nat)
    (l1 l2 : List Int) (c : Int) (blk : Block)
    (hsize : 0 < size)
    (hchain : freeChain st.mem fuel st.free_head = some (l1 ++ c :: l2))
    (hsmall : ∀ a ∈ l1, ∀ b, readBlock st.mem a = some b →
      b.block_size < alignedOf size + OVERHEAD_SIZE)
    (hc : readBlock st.mem c = some blk)
    (hfit : blk.block_size ≥ alignedOf size + OVERHEAD_SIZE)
    (hnosplit : ¬ blk.block_size ≥
      alignedOf size + OVERHEAD_SIZE + OVERHEAD_SIZE + POINTER_SIZE) :
    ∃ st', my_alloc fuel st size = some (.ok (c + OVERHEAD_SIZE) st', []) ∧
      readBlock st'.mem c = some blk ∧
      (lastOf l1 none = none → st'.free_head = blk.next_block) ∧
      (∀ p, lastOf l1 none = some p → st'.free_head = st.free_head ∧
        ∃ pb, readBlock st.mem p = some pb ∧
          readBlock st'.mem p = some { block_size := pb.block_size,
                                       next_block := blk.next_block }) := by
  have hscan := scanFit_found_of_chain st.mem (alignedOf size + OVERHEAD_SIZE) c blk l2 hc hfit
    l1 fuel none st.free_head hchain hsmall
  cases hl : lastOf l1 none with
  | none =>
    rw [hl] at hscan
    refine ⟨{ mem := st.mem, free_head := blk.next_block },
      my_alloc_whole_head_eq fuel st size c blk hsize hscan hc hnosplit, hc, ?_, ?_⟩
    · intro _; rfl
    · intro p hp; exact Option.noConfusion hp
  | some p =>
    rw [hl] at hscan
    have hpmem : p ∈ l1 := lastOf_none_mem l1 p hl
    obtain ⟨pb, hpb⟩ := freeChain_read st.mem (l1 ++ c :: l2) fuel st.free_head hchain p
      (List.mem_append_left _ hpmem)
    have hpsmall : pb.block_size < alignedOf size + OVERHEAD_SIZE := hsmall p hpmem pb hpb
    have hpc : p ≠ c := by
      intro hpc
      rw [hpc, hc] at hpb
      have hbp := Option.some.inj hpb
      rw [hbp] at hfit
      omega
    refine ⟨{ mem := writeBlock st.mem p
                { block_size := pb.block_size, next_block := blk.next_block },
              free_head := st.free_head },
      my_alloc_whole_prev_eq fuel st size p c blk pb hsize hscan hc hnosplit hpb, ?_, ?_, ?_⟩
    · rw [readBlock_writeBlock_ne st.mem p c _ (fun h => hpc h.symm)]
      exact hc
    · intro hnone; exact Option.noConfusion hnone
    · intro q hq
      have hqp : p = q := Option.some.inj hq
      subst hqp
      exact ⟨rfl, pb, hpb, readBlock_writeBlock_self _ _ _⟩

/-- C5 witness: a 24-byte block serves a 4-byte request (`requiredSize` 24)
whole - it is too small to split (24 < 48) - the head moves to `NULL`, the
block keeps its declared size 24, and the payload is `0 + OVERHEAD_SIZE`. -/
theorem my_alloc_whole_correct_witness :
    ∃ st', my_alloc 2 (my_initialize_heap 24 true) 4 =
        some (.ok ((0 : Int) + OVERHEAD_SIZE) st', []) ∧
      readBlock st'.mem 0 = some { block_size := 24, next_block := none } ∧
      (lastOf [] none = none →
        st'.free_head = ({ block_size := (24 : Int), next_block := none } : Block).next_block) ∧
      (∀ p, lastOf [] none = some p →
        st'.free_head = (my_initialize_heap 24 true).free_head ∧
        ∃ pb, readBlock (my_initialize_heap 24 true).mem p = some pb ∧
          readBlock st'.mem p =
            some { block_size := pb.block_size,
                   next_block :=
                     ({ block_size := (24 : Int), next_block := none } : Block).next_block }) :=
  my_alloc_whole_correct (my_initialize_heap 24 true) 4 2 [] [] 0
    { block_size := 24, next_block := none }
    (by decide) (by decide)
    (by intro a ha b hb; simp at ha)
    (by decide)
    (by rw [alignedOf_four]; decide)
    (by rw [alignedOf_four]; decide)

/-- C1: for a positive request (within the `int` range where the alignment
arithmetic does not overflow), when the first block in link order whose
`block_size` is at least `alignedSize + OVERHEAD_SIZE` (`requiredSize`) also
satisfies `block_size >= requiredSize + OVERHEAD_SIZE + POINTER_SIZE`,
`my_alloc` splits it: a new free-block header is written at offset
`requiredSize` from the found block with size exactly
`oldSize - requiredSize` and `next_block` inherited from the found block's
old `next_block`; the found block's size becomes `alignedSize` (its own
`next_block` untouched); and the new block replaces the found block in the
list - as head when the found block was first, otherwise as the
predecessor's `next_block`.  The payload returned is `c + OVERHEAD_SIZE`.
The `hpre` hypothesis records that the predecessor's header does not sit at
the new block's address, which holds in any heap whose blocks do not
overlap. -/
theorem my_alloc_split_correct (st : HeapState) (size : Int) (fuel : Nat)
    (l1 l2 : List Int) (c : Int) (blk : Block)
    (hsize : 0 < size)
    (hrange : size + POINTER_SIZE - 1 < 2 ^ 31)
    (hchain : freeChain st.mem fuel st.free_head = some (l1 ++ c :: l2))
    (hsmall : ∀ a ∈ l1, ∀ b, readBlock st.mem a = some b →
      b.block_size < alignedOf size + OVERHEAD_SIZE)
    (hc : readBlock st.mem c = some blk)
    (hsplit : blk.block_size ≥ alignedOf size + OVERHEAD_SIZE + OVERHEAD_SIZE + POINTER_SIZE)
    (hpre : ∀ p, lastOf l1 none = some p → p ≠ c + (alignedOf size + OVERHEAD_SIZE)) :
    ∃ st', my_alloc fuel st size = some (.ok (c + OVERHEAD_SIZE) st', []) ∧
      readBlock st'.mem (c + (alignedOf size + OVERHEAD_SIZE)) =
        some { block_size := blk.block_size - (alignedOf size + OVERHEAD_SIZE),
               next_block := blk.next_block } ∧
      readBlock st'.mem c =
        some { block_size := alignedOf size, next_block := blk.next_block } ∧
      (lastOf l1 none = none →
        st'.free_head = some (c + (alignedOf size + OVERHEAD_SIZE))) ∧
      (∀ p, lastOf l1 none = some p → st'.free_head = st.free_head ∧
        ∃ pb, readBlock st.mem p = some pb ∧
          readBlock st'.mem p =
            some { block_size := pb.block_size,
                   next_block := some (c + (alignedOf size + OVERHEAD_SIZE)) }) := by
  have h16 : OVERHEAD_SIZE = 16 := rfl
  have h8 : POINTER_SIZE = 8 := rfl
  have hfit : blk.block_size ≥ alignedOf size + OVERHEAD_SIZE := by
    rw [h16] at hsplit ⊢
    rw [h8] at hsplit
    omega
  have hAge := alignedOf_ge size hsize hrange
  have hnewne : c + (alignedOf size + OVERHEAD_SIZE) ≠ c := by
    rw [h8] at hAge
    rw [h16]
    omega
  have hscan := scanFit_found_of_chain st.mem (alignedOf size + OVERHEAD_SIZE) c blk l2 hc hfit
    l1 fuel none st.free_head hchain hsmall
  cases hl : lastOf l1 none with
  | none =>
    rw [hl] at hscan
    refine ⟨_, my_alloc_split_head_eq fuel st size c blk hsize hscan hc hsplit, ?_, ?_, ?_, ?_⟩
    · rw [readBlock_writeBlock_ne _ c _ _ hnewne]
      exact readBlock_writeBlock_self _ _ _
    · exact readBlock_writeBlock_self _ _ _
    · intro _; rfl
    · intro p hp; exact Option.noConfusion hp
  | some p =>
    rw [hl] at hscan
    have hpmem : p ∈ l1 := lastOf_none_mem l1 p hl
    obtain ⟨pb, hpb⟩ := freeChain_read st.mem (l1 ++ c :: l2) fuel st.free_head hchain p
      (List.mem_append_left _ hpmem)
    have hpsmall : pb.block_size < alignedOf size + OVERHEAD_SIZE := hsmall p hpmem pb hpb
    have hpc : p ≠ c := by
      intro hpc
      rw [hpc, hc] at hpb
      have hbp := Option.some.inj hpb
      rw [hbp] at hfit
      omega
    have hpnew : p ≠ c + (alignedOf size + OVERHEAD_SIZE) := hpre p hl
    have hpm2 : readBlock
        (writeBlock
          (writeBlock st.mem (c + (alignedOf size + OVERHEAD_SIZE))
            { block_size := blk.block_size - (alignedOf size + OVERHEAD_SIZE),
              next_block := blk.next_block })
          c { block_size := alignedOf size, next_block := blk.next_block }) p = some pb := by
      rw [readBlock_writeBlock_ne _ c _ _ hpc, readBlock_writeBlock_ne _ _ _ _ hpnew]
      exact hpb
    refine ⟨_, my_alloc_split_prev_eq fuel st size p c blk pb hsize hscan hc hsplit hpm2,
      ?_, ?_, ?_, ?_⟩
    · rw [readBlock_writeBlock_ne _ p _ _ (fun h => hpnew h.symm),
        readBlock_writeBlock_ne _ c _ _ hnewne]
      exact readBlock_writeBlock_self _ _ _
    · rw [readBlock_writeBlock_ne _ p _ _ (fun h => hpc h.symm)]
      exact readBlock_writeBlock_self _ _ _
    · intro hnone; exact Option.noConfusion hnone
    · intro q hq
      have hqp : p = q := Option.some.inj hq
      subst hqp
      exact ⟨rfl, pb, hpb, readBlock_writeBlock_self _ _ _⟩

/-- C1 witness: in a fresh 1000-byte heap a 4-byte request (aligned 8,
required 24) splits the single block: new header at 24 with size 976 and
`next = NULL`, found block shrunk to 8, new block becomes the head. -/
theorem my_alloc_split_correct_witness :
    ∃ st', my_alloc 2 (my_initialize_heap 1000 true) 4 =
        some (.ok ((0 : Int) + OVERHEAD_SIZE) st', []) ∧
      readBlock st'.mem ((0 : Int) + (alignedOf 4 + OVERHEAD_SIZE)) =
        some { block_size := 1000 - (alignedOf 4 + OVERHEAD_SIZE),
               next_block := (none : Option Int) } ∧
      readBlock st'.mem 0 =
        some { block_size := alignedOf 4, next_block := (none : Option Int) } ∧
      (lastOf [] none = none →
        st'.free_head = some ((0 : Int) + (alignedOf 4 + OVERHEAD_SIZE))) ∧
      (∀ p, lastOf [] none = some p →
        st'.free_head = (my_initialize_heap 1000 true).free_head ∧
        ∃ pb, readBlock (my_initialize_heap 1000 true).mem p = some pb ∧
          readBlock st'.mem p =
            some { block_size := pb.block_size,
                   next_block := some ((0 : Int) + (alignedOf 4 + OVERHEAD_SIZE)) }) :=
  my_alloc_split_correct (my_initialize_heap 1000 true) 4 2 [] [] 0
    { block_size := 1000, next_block := none }
    (by decide) (by decide) (by decide)
    (by intro a ha b hb; simp at ha)
    (by decide)
    (by rw [alignedOf_four]; decide)
    (by intro p hp; simp [lastOf] at hp)

/-! ### Size-alignment invariant machinery -/

theorem readBlock_sizesAligned (m : Mem)
    (hm : ∀ e ∈ m, e.2.block_size % POINTER_SIZE = 0)
    (a : Int) (b : Block) (hb : readBlock m a = some b) :
    b.block_size % POINTER_SIZE = 0 :=
  hm (a, b) (readBlock_mem m a b hb)

theorem writeBlock_sizesAligned (m : Mem)
    (hm : ∀ e ∈ m, e.2.block_size % POINTER_SIZE = 0)
    (a : Int) (b : Block) (hb : b.block_size % POINTER_SIZE = 0) :
    ∀ e ∈ writeBlock m a b, e.2.block_size % POINTER_SIZE = 0 := by
  intro e he
  rcases mem_writeBlock m a b e he with h1 | h1
  · rw [h1]
    exact hb
  · exact hm e h1

theorem my_alloc_preserves_sizesAligned (fuel : Nat) (st : HeapState) (size : Int)
    (r : AllocResult) (out : List String)
    (hst : sizesAligned st)
    (h : my_alloc fuel st size = some (r, out)) :
    sizesAligned r.state := by
  have h16 : OVERHEAD_SIZE = 16 := rfl
  have h8 : POINTER_SIZE = 8 := rfl
  unfold sizesAligned at hst ⊢
  unfold my_alloc at h
  split at h
  · -- invalid size: state unchanged
    injection h with h1
    injection h1 with hr hout
    subst hr
    exact hst
  · split at h
    · exact Option.noConfusion h
    · -- noFit: state unchanged
      injection h with h1
      injection h1 with hr hout
      subst hr
      exact hst
    · -- found prev c
      rename_i prev c hfound
      split at h
      · exact Option.noConfusion h
      · rename_i blk hcblk
        have hblk := readBlock_sizesAligned st.mem hst c blk hcblk
        have hal := alignedOf_emod size
        split at h
        · -- split branch
          split at h
          · -- prev = none
            injection h with h1
            injection h1 with hr hout
            subst hr
            simp only [AllocResult.state]
            apply writeBlock_sizesAligned
            · apply writeBlock_sizesAligned
              · exact hst
              · show (blk.block_size - (alignedOf size + OVERHEAD_SIZE)) % POINTER_SIZE = 0
                rw [h16, h8]
                rw [h8] at hblk hal
                omega
            · exact hal
          · -- prev = some p
            split at h
            · exact Option.noConfusion h
            · rename_i m3 hm3
              injection h with h1
              injection h1 with hr hout
              subst hr
              simp only [AllocResult.state]
              unfold setNext at hm3
              split at hm3
              · exact Option.noConfusion hm3
              · rename_i pb hpb
                have hm3v := Option.some.inj hm3
                subst hm3v
                have hm2 : ∀ e ∈ writeBlock
                    (writeBlock st.mem (c + (alignedOf size + OVERHEAD_SIZE))
                      { block_size := blk.block_size - (alignedOf size + OVERHEAD_SIZE),
                        next_block := blk.next_block })
                    c { block_size := alignedOf size, next_block := blk.next_block },
                    e.2.block_size % POINTER_SIZE = 0 := by
                  apply writeBlock_sizesAligned
                  · apply writeBlock_sizesAligned
                    · exact hst
                    · show (blk.block_size - (alignedOf size + OVERHEAD_SIZE)) % POINTER_SIZE = 0
                      rw [h16, h8]
                      rw [h8] at hblk hal
                      omega
                  · exact hal
                apply writeBlock_sizesAligned _ hm2
                exact readBlock_sizesAligned _ hm2 _ pb hpb
        · -- consume-whole branch
          split at h
          · -- prev = none: memory untouched
            injection h with h1
            injection h1 with hr hout
            subst hr
            simp only [AllocResult.state]
            exact hst
          · -- prev = some p
            split at h
            · exact Option.noConfusion h
            · rename_i m1 hm1
              injection h with h1
              injection h1 with hr hout
              subst hr
              simp only [AllocResult.state]
              unfold setNext at hm1
              split at hm1
              · exact Option.noConfusion hm1
              · rename_i pb hpb
                have hm1v := Option.some.inj hm1
                subst hm1v
                apply writeBlock_sizesAligned _ hst
                exact readBlock_sizesAligned _ hst _ pb hpb

theorem my_free_preserves_sizesAligned (st : HeapState) (ptr : Option Int) (st' : HeapState)
    (hst : sizesAligned st)
    (h : my_free st ptr = some st') : sizesAligned st' := by
  unfold sizesAligned at hst ⊢
  unfold my_free at h
  split at h
  · have hv := Option.some.inj h
    subst hv
    exact hst
  · rename_i p
    split at h
    · exact Option.noConfusion h
    · rename_i b hb
      have hv := Option.some.inj h
      subst hv
      apply writeBlock_sizesAligned _ hst
      exact readBlock_sizesAligned _ hst _ b hb

/-- C6 counterexample: `my_initialize_heap(5)` writes the initial free block
with `block_size = 5` exactly - no rounding - and 5 is not a multiple of the
pointer-alignment unit, refuting the claim for arbitrary positive capacity. -/
theorem my_initialize_heap_unaligned_counterexample :
    (0 : Int) < 5 ∧
    readBlock (my_initialize_heap 5 true).mem 0 =
      some { block_size := 5, next_block := none } ∧
    ¬ ((5 : Int) % POINTER_SIZE = 0) := by decide

/-- C6 (amended): the initial block written by `my_initialize_heap(capacity)`
has size `capacity` unrounded, so the multiple-of-`POINTER_SIZE` invariant
holds of it exactly when the capacity itself is a multiple of the unit; and
whenever every written block's size is a multiple of `POINTER_SIZE`, the
invariant is preserved by every `my_alloc` (split and consume-whole alike)
and every `my_free`. -/
theorem block_sizes_multiple_of_unit :
    (∀ size : Int, size % POINTER_SIZE = 0 → sizesAligned (my_initialize_heap size true)) ∧
    (∀ (fuel : Nat) (st : HeapState) (size : Int) (r : AllocResult) (out : List String),
      sizesAligned st → my_alloc fuel st size = some (r, out) → sizesAligned r.state) ∧
    (∀ (st : HeapState) (ptr : Option Int) (st' : HeapState),
      sizesAligned st → my_free st ptr = some st' → sizesAligned st') := by
  refine ⟨?_, my_alloc_preserves_sizesAligned, my_free_preserves_sizesAligned⟩
  intro size hdiv e he
  have hm : (my_initialize_heap size true).mem =
      [(0, { block_size := size, next_block := none })] := rfl
  rw [hm] at he
  have he' := List.mem_singleton.mp he
  rw [he']
  exact hdiv

/-- C6 witness: freeing payload 16 in the fresh 1000-byte heap keeps every
block size a multiple of 8. -/
theorem block_sizes_multiple_of_unit_witness :
    sizesAligned
      { mem := [((0 : Int), { block_size := (1000 : Int), next_block := some (0 : Int) })],
        free_head := some 0 } :=
  block_sizes_multiple_of_unit.2.2 (my_initialize_heap 1000 true) (some 16)
    { mem := [((0 : Int), { block_size := (1000 : Int), next_block := some (0 : Int) })],
      free_head := some 0 }
    (by unfold sizesAligned; decide) (by decide)

/-- C3: in a fresh 1000-byte heap, `X = my_alloc(4)` returns payload 16 and
leaves X's block with capacity `block_size = 8`; `my_free(X)` pushes that
block onto the front of the free list exactly as the claim says (head =
header of X, `next` = old head); but the round trip `Y = my_alloc(4)` with
`4 <= 8 = X`'s capacity returns payload 40, not 16: the search needs
`block_size >= alignedSize + OVERHEAD_SIZE = 24`, so X's 8-byte block is
skipped and the claimed `Y == X` reuse fails on the code, although the
harness in `main.c` prints that the addresses should be equal
(`menuOptionOne`, `menuOptionThree`). -/
theorem lifo_reuse_broken :
    ∃ stA stF stB,
      my_alloc 4 (my_initialize_heap 1000 true) 4 = some (.ok 16 stA, []) ∧
      readBlock stA.mem 0 = some { block_size := 8, next_block := none } ∧
      my_free stA (some 16) = some stF ∧
      stF.free_head = some 0 ∧
      readBlock stF.mem 0 = some { block_size := 8, next_block := some 24 } ∧
      my_alloc 4 stF 4 = some (.ok 40 stB, []) ∧
      (40 : Int) ≠ 16 := by
  refine ⟨{ mem := [((0 : Int), { block_size := (8 : Int), next_block := none }),
                    ((24 : Int), { block_size := (976 : Int), next_block := none })],
            free_head := some 24 },
          { mem := [((0 : Int), { block_size := (8 : Int), next_block := some (24 : Int) }),
                    ((24 : Int), { block_size := (976 : Int), next_block := none })],
            free_head := some 0 },
          { mem := [((0 : Int), { block_size := (8 : Int), next_block := some (48 : Int) }),
                    ((24 : Int), { block_size := (8 : Int), next_block := none }),
                    ((48 : Int), { block_size := (952 : Int), next_block := none })],
            free_head := some 0 },
          ?_, by decide, by decide, by decide, by decide, ?_, by decide⟩
  · have he := my_alloc_split_head_eq 4 (my_initialize_heap 1000 true) 4 0
      { block_size := 1000, next_block := none } (by decide)
      (by rw [alignedOf_four]; decide) (by decide) (by rw [alignedOf_four]; decide)
    rw [he, alignedOf_four]
    decide
  · have he := my_alloc_split_prev_eq 4
      { mem := [((0 : Int), { block_size := (8 : Int), next_block := some (24 : Int) }),
                ((24 : Int), { block_size := (976 : Int), next_block := none })],
        free_head := some 0 }
      4 0 24 { block_size := 976, next_block := none }
      { block_size := 8, next_block := some 24 }
      (by decide)
      (by rw [alignedOf_four]; decide) (by decide) (by rw [alignedOf_four]; decide)
      (by rw [alignedOf_four]; decide)
    rw [he, alignedOf_four]
    decide
